import Mathlib

/-!
Verification of the rusty-math vector library (`src/lib.rs`).

The library works on `f64` scalars.  Two models of the scalar type are used:

* A generic field `α` (instantiated at `ℝ` in the theorems): exact arithmetic,
  the idealisation of IEEE-754 arithmetic without rounding, overflow or special
  values.  The standard-library function `f64::sqrt`, which is not part of the
  repository, is passed as an explicit parameter and instantiated with
  `Real.sqrt`.

* `EF`, an exact model of IEEE-754 double-precision values: finite values are
  rationals (with `EF.fin 0` playing the role of `+0.0`), plus negative zero,
  the two infinities and NaN.  Arithmetic on finite values is exact (the model
  has no rounding and no overflow), while the special values follow the
  IEEE-754 rules.  This layer settles the claims about NaN / infinity
  propagation and about the derived `PartialEq` comparison.
-/

/-- `Vec3` from `src/lib.rs`: three scalar fields `x`, `y`, `z`. -/
structure Vec3 (α : Type) where
  x : α
  y : α
  z : α
deriving DecidableEq

namespace Vec3

variable {α : Type} [Field α]

/-- `Vec3::length_squared`: `x*x + y*y + z*z`. -/
def length_squared (v : Vec3 α) : α :=
  v.x * v.x + v.y * v.y + v.z * v.z

/-- `Vec3::cross`. -/
def cross (a b : Vec3 α) : Vec3 α :=
  ⟨a.y * b.z - a.z * b.y,
   a.z * b.x - a.x * b.z,
   a.x * b.y - a.y * b.x⟩

/-- `Vec3::dot`: `x1*x2 + y1*y2 + z1*z2`. -/
def dot (a b : Vec3 α) : α :=
  a.x * b.x + a.y * b.y + a.z * b.z

/-- `impl Add for &Vec3`: component-wise sum. -/
def add (a b : Vec3 α) : Vec3 α :=
  ⟨a.x + b.x, a.y + b.y, a.z + b.z⟩

/-- `impl AddAssign for Vec3`, as a function from the old value of `self`
to its new value. -/
def add_assign (a b : Vec3 α) : Vec3 α :=
  ⟨a.x + b.x, a.y + b.y, a.z + b.z⟩

/-- `impl Sub for &Vec3`: component-wise difference. -/
def sub (a b : Vec3 α) : Vec3 α :=
  ⟨a.x - b.x, a.y - b.y, a.z - b.z⟩

/-- `impl SubAssign for Vec3`, as a function from the old value of `self`
to its new value. -/
def sub_assign (a b : Vec3 α) : Vec3 α :=
  ⟨a.x - b.x, a.y - b.y, a.z - b.z⟩

/-- `impl Mul<f64> for &Vec3`: scale each component by `scaler`. -/
def mul (v : Vec3 α) (scaler : α) : Vec3 α :=
  ⟨v.x * scaler, v.y * scaler, v.z * scaler⟩

/-- `impl Mul<&Vec3> for f64`: the scalar-on-the-left form, which also
computes `component * scalar`. -/
def smul (scaler : α) (v : Vec3 α) : Vec3 α :=
  ⟨v.x * scaler, v.y * scaler, v.z * scaler⟩

/-- `impl MulAssign<f64> for Vec3`, as a function from the old value of
`self` to its new value. -/
def mul_assign (v : Vec3 α) (scaler : α) : Vec3 α :=
  ⟨v.x * scaler, v.y * scaler, v.z * scaler⟩

/-- `impl Div<f64> for &Vec3`: `let d = 1/divisor` computed once, then each
component is multiplied by `d`. -/
def div (v : Vec3 α) (divisor : α) : Vec3 α :=
  let d := 1 / divisor
  ⟨v.x * d, v.y * d, v.z * d⟩

/-- `impl DivAssign<f64> for Vec3`, as a function from the old value of
`self` to its new value; uses the same reciprocal-multiply technique. -/
def div_assign (v : Vec3 α) (divisor : α) : Vec3 α :=
  let d := 1 / divisor
  ⟨v.x * d, v.y * d, v.z * d⟩

/-- `Vec3::normalize`: `self / self.length_squared().sqrt()`.  The
standard-library square root `f64::sqrt` is not part of the repository and is
passed as the parameter `sqrt`; real-valued theorems instantiate it with
`Real.sqrt`. -/
def normalize (sqrt : α → α) (v : Vec3 α) : Vec3 α :=
  v.div (sqrt v.length_squared)

end Vec3

/-- `Ray` from `src/lib.rs`: an origin and a direction, both `Vec3`. -/
structure Ray (α : Type) where
  origin : Vec3 α
  dir : Vec3 α
deriving DecidableEq

namespace Ray

variable {α : Type} [Field α]

/-- `Ray::point_at`: `&self.origin + &(&self.dir * t)`. -/
def point_at (r : Ray α) (t : α) : Vec3 α :=
  r.origin.add (r.dir.mul t)

end Ray

/-- `EF` is an exact model of an IEEE-754 binary64 (`f64`) value: a finite
value is a rational (`EF.fin 0` is `+0.0`), and the special values `-0.0`,
`+inf`, `-inf` and NaN are separate constructors.  Finite arithmetic is exact
(the model has neither rounding nor overflow); the special values follow the
IEEE-754 rules.  NaN payloads are not modelled: all NaNs are `EF.nan`. -/
inductive EF where
  | fin : ℚ → EF
  | negZero : EF
  | inf : EF
  | negInf : EF
  | nan : EF
deriving DecidableEq

namespace EF

/-- IEEE-754 addition on `EF` (exact on finite values).  `+0.0 + -0.0 = +0.0`
and `x + (-x) = +0.0` under round-to-nearest, which `fin (a + b)` realises. -/
def eadd : EF → EF → EF
  | nan, _ => nan
  | _, nan => nan
  | inf, negInf => nan
  | negInf, inf => nan
  | inf, _ => inf
  | _, inf => inf
  | negInf, _ => negInf
  | _, negInf => negInf
  | negZero, negZero => negZero
  | negZero, fin b => fin b
  | fin a, negZero => fin a
  | fin a, fin b => fin (a + b)

/-- IEEE-754 multiplication on `EF` (exact on finite values).  The sign of a
zero product is the exclusive-or of the operand signs; `0 * inf = NaN`. -/
def emul : EF → EF → EF
  | nan, _ => nan
  | _, nan => nan
  | inf, inf => inf
  | inf, negInf => negInf
  | negInf, inf => negInf
  | negInf, negInf => inf
  | inf, negZero => nan
  | negZero, inf => nan
  | negInf, negZero => nan
  | negZero, negInf => nan
  | inf, fin b => if b = 0 then nan else if b < 0 then negInf else inf
  | fin a, inf => if a = 0 then nan else if a < 0 then negInf else inf
  | negInf, fin b => if b = 0 then nan else if b < 0 then inf else negInf
  | fin a, negInf => if a = 0 then nan else if a < 0 then inf else negInf
  | negZero, negZero => fin 0
  | negZero, fin b => if b < 0 then fin 0 else negZero
  | fin a, negZero => if a < 0 then fin 0 else negZero
  | fin a, fin b =>
      if a = 0 ∨ b = 0 then (if a < 0 ∨ b < 0 then negZero else fin 0)
      else fin (a * b)

/-- IEEE-754 division on `EF` (exact on finite values).  A nonzero finite
value divided by a zero is a signed infinity; `0/0` and `inf/inf` are NaN. -/
def ediv : EF → EF → EF
  | nan, _ => nan
  | _, nan => nan
  | inf, inf => nan
  | inf, negInf => nan
  | negInf, inf => nan
  | negInf, negInf => nan
  | inf, negZero => negInf
  | negInf, negZero => inf
  | inf, fin b => if b < 0 then negInf else inf
  | negInf, fin b => if b < 0 then inf else negInf
  | fin a, inf => if a < 0 then negZero else fin 0
  | negZero, inf => negZero
  | fin a, negInf => if a < 0 then fin 0 else negZero
  | negZero, negInf => fin 0
  | negZero, negZero => nan
  | fin a, negZero => if a = 0 then nan else if a < 0 then inf else negInf
  | negZero, fin b => if b = 0 then nan else if b < 0 then fin 0 else negZero
  | fin a, fin b =>
      if b = 0 then (if a = 0 then nan else if a < 0 then negInf else inf)
      else if a = 0 ∧ b < 0 then negZero
      else fin (a / b)

/-- IEEE-754 square root on `EF`: NaN on negative inputs, `-0.0` on `-0.0`.
On finite nonnegative rationals it uses `Rat.sqrt`, which agrees with the
IEEE result exactly on perfect squares; the development only evaluates it at
such inputs (namely `0`). -/
def esqrt : EF → EF
  | nan => nan
  | inf => inf
  | negInf => nan
  | negZero => negZero
  | fin q => if q < 0 then nan else fin (Rat.sqrt q)

/-- The IEEE-754 `==` comparison on `EF` (the comparison `PartialEq` for
`f64` performs): NaN compares unequal to everything, `-0.0 == +0.0`. -/
def feq : EF → EF → Bool
  | nan, _ => false
  | _, nan => false
  | inf, inf => true
  | negInf, negInf => true
  | inf, _ => false
  | _, inf => false
  | negInf, _ => false
  | _, negInf => false
  | negZero, negZero => true
  | negZero, fin b => decide (b = 0)
  | fin a, negZero => decide (a = 0)
  | fin a, fin b => decide (a = b)

end EF

/-- `impl Div<f64> for &Vec3` over the IEEE model `EF`: `let d = 1/divisor`
once, then each component is multiplied by `d`. -/
def eVdiv (v : Vec3 EF) (divisor : EF) : Vec3 EF :=
  let d := EF.ediv (EF.fin 1) divisor
  ⟨EF.emul v.x d, EF.emul v.y d, EF.emul v.z d⟩

/-- `impl DivAssign<f64> for Vec3` over the IEEE model `EF`, as a function
from the old value of `self` to its new value. -/
def eVdivAssign (v : Vec3 EF) (divisor : EF) : Vec3 EF :=
  let d := EF.ediv (EF.fin 1) divisor
  ⟨EF.emul v.x d, EF.emul v.y d, EF.emul v.z d⟩

/-- `Vec3::length_squared` over the IEEE model: `(x*x + y*y) + z*z`, the
association Rust uses for `x*x + y*y + z*z`. -/
def eLengthSquared (v : Vec3 EF) : EF :=
  EF.eadd (EF.eadd (EF.emul v.x v.x) (EF.emul v.y v.y)) (EF.emul v.z v.z)

/-- `Vec3::normalize` over the IEEE model:
`self / self.length_squared().sqrt()`. -/
def eNormalize (v : Vec3 EF) : Vec3 EF :=
  eVdiv v (EF.esqrt (eLengthSquared v))

/-- `Vec3::dot` over the IEEE model: `(x1*x2 + y1*y2) + z1*z2`. -/
def edot (a b : Vec3 EF) : EF :=
  EF.eadd (EF.eadd (EF.emul a.x b.x) (EF.emul a.y b.y)) (EF.emul a.z b.z)

/-- The `derive(PartialEq)` comparison of two `Vec3`s: component-wise
IEEE-754 `==`. -/
def eVeq (a b : Vec3 EF) : Bool :=
  EF.feq a.x b.x && EF.feq a.y b.y && EF.feq a.z b.z

/-- The `derive(PartialEq)` comparison of two `Ray`s: field-wise `Vec3`
comparison. -/
def eRayEq (r s : Ray EF) : Bool :=
  eVeq r.origin s.origin && eVeq r.dir s.dir

/-- An `EF` value that is an infinity or NaN (not a finite value and not a
zero). -/
def nonFinite (e : EF) : Prop :=
  e = EF.inf ∨ e = EF.negInf ∨ e = EF.nan

/-- A `Vec3` over the IEEE model none of whose components is NaN. -/
def nanFreeV (v : Vec3 EF) : Prop :=
  v.x ≠ EF.nan ∧ v.y ≠ EF.nan ∧ v.z ≠ EF.nan

/-- IEEE multiplication on the exact model is commutative (NaN payloads are
not modelled). -/
theorem EF.emul_comm (a b : EF) : EF.emul a b = EF.emul b a := by
  cases a <;> cases b <;> simp [EF.emul, or_comm, mul_comm]

/-- IEEE `==` is reflexive away from NaN. -/
theorem EF.feq_refl (a : EF) (h : a ≠ EF.nan) : EF.feq a a = true := by
  cases a <;> simp_all [EF.feq]

/-- The two `dot` computations with swapped arguments produce the identical
`EF` value: the products commute and the additions associate identically. -/
theorem edot_comm (a b : Vec3 EF) : edot a b = edot b a := by
  unfold edot
  rw [EF.emul_comm a.x b.x, EF.emul_comm a.y b.y, EF.emul_comm a.z b.z]

/-- Multiplying anything by `+inf` never yields a finite value or a zero. -/
theorem EF.emul_inf_nonFinite (a : EF) : nonFinite (EF.emul a EF.inf) := by
  cases a <;> simp only [EF.emul, nonFinite] <;> (try split_ifs) <;> simp

/-- A component-wise self-comparison fails as soon as one component is NaN. -/
theorem eVeq_self_eq_false_of_nan (v : Vec3 EF)
    (h : v.x = EF.nan ∨ v.y = EF.nan ∨ v.z = EF.nan) : eVeq v v = false := by
  rcases h with h | h | h <;> simp [eVeq, h, EF.feq]

/-- The squared length of a vector that is not the zero vector is positive. -/
theorem length_squared_pos_of_ne_zero (v : Vec3 ℝ) (hv : v ≠ ⟨0, 0, 0⟩) :
    0 < v.length_squared := by
  rcases v with ⟨x, y, z⟩
  have hne : x ≠ 0 ∨ y ≠ 0 ∨ z ≠ 0 := by
    by_contra h
    push_neg at h
    exact hv (by simp [h.1, h.2.1, h.2.2])
  simp only [Vec3.length_squared]
  rcases hne with h | h | h <;>
    nlinarith [mul_self_nonneg x, mul_self_nonneg y, mul_self_nonneg z,
      mul_self_pos.mpr h]

/-- C1: `Ray::point_at` returns `origin + dir * t` — the component-wise sum of
the origin with the component-wise scaling of the direction by `t`, for every
scalar `t` with no clamping; at origin `(1,1,0)`, direction `(0,3,0)`, `t = 2`
the result is `(1,7,0)`. -/
theorem ray_point_at_spec :
    (∀ (o d : Vec3 ℝ) (t : ℝ), (Ray.mk o d).point_at t = o.add (d.mul t)) ∧
    (∀ (o d : Vec3 ℝ) (t : ℝ),
      (Ray.mk o d).point_at t = ⟨o.x + d.x * t, o.y + d.y * t, o.z + d.z * t⟩) ∧
    (Ray.mk (⟨1, 1, 0⟩ : Vec3 ℝ) ⟨0, 3, 0⟩).point_at 2 = ⟨1, 7, 0⟩ := by
  refine ⟨fun o d t => rfl, fun o d t => rfl, ?_⟩
  simp [Ray.point_at, Vec3.add, Vec3.mul]
  norm_num

/-- C2: `Vec3::normalize` divides `self` by the square root of
`length_squared` — square the length first, take its square root, then divide
with the library's reciprocal-multiply division; in the IEEE model, a
zero-length input yields NaN components with no guard. -/
theorem normalize_formula_spec :
    (∀ v : Vec3 ℝ, v.normalize Real.sqrt = v.div (Real.sqrt v.length_squared)) ∧
    (∀ v : Vec3 ℝ, v.normalize Real.sqrt =
      ⟨v.x * (1 / Real.sqrt (v.x * v.x + v.y * v.y + v.z * v.z)),
       v.y * (1 / Real.sqrt (v.x * v.x + v.y * v.y + v.z * v.z)),
       v.z * (1 / Real.sqrt (v.x * v.x + v.y * v.y + v.z * v.z))⟩) ∧
    eNormalize ⟨EF.fin 0, EF.fin 0, EF.fin 0⟩ = ⟨EF.nan, EF.nan, EF.nan⟩ := by
  refine ⟨fun v => rfl, fun v => rfl, ?_⟩
  norm_num [eNormalize, eVdiv, eLengthSquared, EF.emul, EF.eadd, EF.esqrt,
    EF.ediv, Rat.sqrt]

/-- C3: division of a `Vec3` by a scalar — both the pure form and the
in-place form — multiplies each component by the reciprocal `1/divisor`, and
the two forms agree. -/
theorem div_reciprocal_spec :
    (∀ (v : Vec3 ℝ) (s : ℝ),
      v.div s = ⟨v.x * (1 / s), v.y * (1 / s), v.z * (1 / s)⟩) ∧
    (∀ (v : Vec3 ℝ) (s : ℝ),
      v.div_assign s = ⟨v.x * (1 / s), v.y * (1 / s), v.z * (1 / s)⟩) ∧
    (∀ (v : Vec3 ℝ) (s : ℝ), v.div_assign s = v.div s) :=
  ⟨fun v s => rfl, fun v s => rfl, fun v s => rfl⟩

/-- C4: the cross product is perpendicular to both inputs under the library's
dot product, exactly; in particular at `a = (1,10,0)`, `b = (0,23,-12)`. -/
theorem cross_perpendicular_spec :
    (∀ a b : Vec3 ℝ, a.dot (a.cross b) = 0 ∧ b.dot (a.cross b) = 0) ∧
    ((⟨1, 10, 0⟩ : Vec3 ℝ).dot ((⟨1, 10, 0⟩ : Vec3 ℝ).cross ⟨0, 23, -12⟩) = 0 ∧
     (⟨0, 23, -12⟩ : Vec3 ℝ).dot ((⟨1, 10, 0⟩ : Vec3 ℝ).cross ⟨0, 23, -12⟩) = 0) := by
  refine ⟨fun a b => ⟨?_, ?_⟩, ?_, ?_⟩ <;>
    simp only [Vec3.dot, Vec3.cross] <;> ring

/-- C5: normalizing a non-zero vector yields a vector of squared length
exactly `1` in exact real arithmetic, and in particular for `a = (1,2,3)`. -/
theorem normalize_unit_spec :
    (∀ v : Vec3 ℝ, v ≠ ⟨0, 0, 0⟩ →
      (v.normalize Real.sqrt).length_squared = 1) ∧
    ((⟨1, 2, 3⟩ : Vec3 ℝ).normalize Real.sqrt).length_squared = 1 := by
  have main : ∀ v : Vec3 ℝ, v ≠ ⟨0, 0, 0⟩ →
      (v.normalize Real.sqrt).length_squared = 1 := by
    intro v hv
    have hL : 0 < v.length_squared := length_squared_pos_of_ne_zero v hv
    have hs : Real.sqrt v.length_squared ≠ 0 := (Real.sqrt_pos.mpr hL).ne'
    have key : Real.sqrt v.length_squared * Real.sqrt v.length_squared =
        v.length_squared := Real.mul_self_sqrt hL.le
    simp only [Vec3.normalize, Vec3.div, Vec3.length_squared] at key hs ⊢
    field_simp
    linarith [key]
  refine ⟨main, main _ ?_⟩
  intro h
  have := congrArg Vec3.x h
  norm_num at this

/-- C5 witness at the concrete input `(1,2,3)`. -/
theorem normalize_unit_spec_witness :
    (⟨1, 2, 3⟩ : Vec3 ℝ) ≠ ⟨0, 0, 0⟩ ∧
    ((⟨1, 2, 3⟩ : Vec3 ℝ).normalize Real.sqrt).length_squared = 1 :=
  ⟨fun h => by have := congrArg Vec3.x h; norm_num at this,
   normalize_unit_spec.1 _ (fun h => by have := congrArg Vec3.x h; norm_num at this)⟩

/-- C6 counterexample: with a NaN component in `a`, the comparison
`a.dot(b) == b.dot(a)` is false under IEEE `==`, because both sides are NaN. -/
theorem dot_comm_float_cex :
    EF.feq (edot ⟨EF.nan, EF.fin 0, EF.fin 0⟩ ⟨EF.fin 0, EF.fin 0, EF.fin 0⟩)
      (edot ⟨EF.fin 0, EF.fin 0, EF.fin 0⟩ ⟨EF.nan, EF.fin 0, EF.fin 0⟩) = false := by
  norm_num [edot, EF.emul, EF.eadd, EF.feq]

/-- C6 amended: `a.dot(b)` and `b.dot(a)` always compute the identical value
(exactly commutative in real arithmetic, and the identical value in the IEEE
model); the `==` comparison between them holds whenever that value is not
NaN. -/
theorem dot_comm_amended :
    (∀ a b : Vec3 ℝ, a.dot b = b.dot a) ∧
    (∀ a b : Vec3 EF, edot a b = edot b a) ∧
    (∀ a b : Vec3 EF, edot a b ≠ EF.nan →
      EF.feq (edot a b) (edot b a) = true) :=
  ⟨fun a b => by simp only [Vec3.dot]; ring,
   fun a b => edot_comm a b,
   fun a b h => by rw [edot_comm b a]; exact EF.feq_refl _ h⟩

/-- C6 witness at `a = (1,2,3)`, `b = (4,5,6)`: the dot product is `32`, not
NaN, and the comparison succeeds. -/
theorem dot_comm_amended_witness :
    edot ⟨EF.fin 1, EF.fin 2, EF.fin 3⟩ ⟨EF.fin 4, EF.fin 5, EF.fin 6⟩ ≠ EF.nan ∧
    EF.feq (edot ⟨EF.fin 1, EF.fin 2, EF.fin 3⟩ ⟨EF.fin 4, EF.fin 5, EF.fin 6⟩)
      (edot ⟨EF.fin 4, EF.fin 5, EF.fin 6⟩ ⟨EF.fin 1, EF.fin 2, EF.fin 3⟩) = true := by
  have h : edot ⟨EF.fin 1, EF.fin 2, EF.fin 3⟩ ⟨EF.fin 4, EF.fin 5, EF.fin 6⟩ ≠ EF.nan := by
    norm_num [edot, EF.emul, EF.eadd]
    exact fun h => EF.noConfusion h
  exact ⟨h, dot_comm_amended.2.2 _ _ h⟩

/-- C7: the cross product returns exactly the right-handed component formula;
on the standard basis, `e1 x e2 = e3`. -/
theorem cross_components_spec :
    (∀ a b : Vec3 ℝ, a.cross b =
      ⟨a.y * b.z - a.z * b.y, a.z * b.x - a.x * b.z, a.x * b.y - a.y * b.x⟩) ∧
    (⟨1, 0, 0⟩ : Vec3 ℝ).cross ⟨0, 1, 0⟩ = ⟨0, 0, 1⟩ := by
  refine ⟨fun a b => rfl, ?_⟩
  simp [Vec3.cross]

/-- C8: in the IEEE model, dividing any vector by the zero scalar produces
only infinite or NaN components (no guard, no error path), the in-place
divide behaves identically, and normalizing the zero vector produces NaN
components. -/
theorem div_zero_unguarded_spec :
    (∀ v : Vec3 EF,
      nonFinite (eVdiv v (EF.fin 0)).x ∧
      nonFinite (eVdiv v (EF.fin 0)).y ∧
      nonFinite (eVdiv v (EF.fin 0)).z) ∧
    (∀ v : Vec3 EF, eVdivAssign v (EF.fin 0) = eVdiv v (EF.fin 0)) ∧
    eNormalize ⟨EF.fin 0, EF.fin 0, EF.fin 0⟩ = ⟨EF.nan, EF.nan, EF.nan⟩ := by
  have hd : EF.ediv (EF.fin 1) (EF.fin 0) = EF.inf := by
    norm_num [EF.ediv]
  refine ⟨fun v => ?_, fun v => rfl, ?_⟩
  · simp only [eVdiv, hd]
    exact ⟨EF.emul_inf_nonFinite v.x, EF.emul_inf_nonFinite v.y,
      EF.emul_inf_nonFinite v.z⟩
  · norm_num [eNormalize, eVdiv, eLengthSquared, EF.emul, EF.eadd, EF.esqrt,
      EF.ediv, Rat.sqrt]

/-- C9: every in-place arithmetic operation agrees with its non-mutating
counterpart: `+=` with `+`, `-=` with `-`, `*=` with `*`, `/=` with `/` (the
latter both via the reciprocal). -/
theorem inplace_matches_pure_spec :
    (∀ a b : Vec3 ℝ, a.add_assign b = a.add b) ∧
    (∀ a b : Vec3 ℝ, a.sub_assign b = a.sub b) ∧
    (∀ (a : Vec3 ℝ) (s : ℝ), a.mul_assign s = a.mul s) ∧
    (∀ (a : Vec3 ℝ) (s : ℝ), a.div_assign s = a.div s) :=
  ⟨fun a b => rfl, fun a b => rfl, fun a s => rfl, fun a s => rfl⟩

/-- C10: the derived `PartialEq` on `Vec3` and `Ray` is the exact
component-wise IEEE comparison: any NaN component makes a value unequal to
itself; on NaN-free vectors it holds exactly when every component pair
compares `==`; and `-0.0` equals `+0.0`. -/
theorem derived_eq_ieee_spec :
    (∀ v : Vec3 EF, (v.x = EF.nan ∨ v.y = EF.nan ∨ v.z = EF.nan) →
      eVeq v v = false) ∧
    (∀ r : Ray EF,
      (r.origin.x = EF.nan ∨ r.origin.y = EF.nan ∨ r.origin.z = EF.nan ∨
       r.dir.x = EF.nan ∨ r.dir.y = EF.nan ∨ r.dir.z = EF.nan) →
      eRayEq r r = false) ∧
    (∀ a b : Vec3 EF, nanFreeV a → nanFreeV b →
      (eVeq a b = true ↔
        (EF.feq a.x b.x = true ∧ EF.feq a.y b.y = true ∧ EF.feq a.z b.z = true))) ∧
    EF.feq EF.negZero (EF.fin 0) = true ∧
    eVeq ⟨EF.negZero, EF.fin 1, EF.fin 2⟩ ⟨EF.fin 0, EF.fin 1, EF.fin 2⟩ = true := by
  refine ⟨fun v h => eVeq_self_eq_false_of_nan v h, fun r h => ?_, fun a b ha hb => ?_,
    ?_, ?_⟩
  · rcases h with h | h | h | h | h | h
    all_goals simp only [eRayEq, Bool.and_eq_false_iff]
    · exact Or.inl (eVeq_self_eq_false_of_nan _ (Or.inl h))
    · exact Or.inl (eVeq_self_eq_false_of_nan _ (Or.inr (Or.inl h)))
    · exact Or.inl (eVeq_self_eq_false_of_nan _ (Or.inr (Or.inr h)))
    · exact Or.inr (eVeq_self_eq_false_of_nan _ (Or.inl h))
    · exact Or.inr (eVeq_self_eq_false_of_nan _ (Or.inr (Or.inl h)))
    · exact Or.inr (eVeq_self_eq_false_of_nan _ (Or.inr (Or.inr h)))
  · simp [eVeq, Bool.and_eq_true, and_assoc]
  · norm_num [EF.feq]
  · norm_num [eVeq, EF.feq]

/-- C10 witness: a NaN vector and a NaN ray compare unequal to themselves;
a NaN-free pair compares by components. -/
theorem derived_eq_ieee_spec_witness :
    eVeq ⟨EF.nan, EF.fin 0, EF.fin 0⟩ ⟨EF.nan, EF.fin 0, EF.fin 0⟩ = false ∧
    eRayEq ⟨⟨EF.nan, EF.fin 0, EF.fin 0⟩, ⟨EF.fin 0, EF.fin 0, EF.fin 0⟩⟩
      ⟨⟨EF.nan, EF.fin 0, EF.fin 0⟩, ⟨EF.fin 0, EF.fin 0, EF.fin 0⟩⟩ = false ∧
    (eVeq ⟨EF.fin 1, EF.fin 2, EF.fin 3⟩ ⟨EF.fin 1, EF.fin 2, EF.fin 3⟩ = true ↔
      (EF.feq (EF.fin 1) (EF.fin 1) = true ∧ EF.feq (EF.fin 2) (EF.fin 2) = true ∧
       EF.feq (EF.fin 3) (EF.fin 3) = true)) :=
  ⟨derived_eq_ieee_spec.1 _ (Or.inl rfl),
   derived_eq_ieee_spec.2.1 _ (Or.inl rfl),
   derived_eq_ieee_spec.2.2.1 _ _
     ⟨fun h => EF.noConfusion h, fun h => EF.noConfusion h, fun h => EF.noConfusion h⟩
     ⟨fun h => EF.noConfusion h, fun h => EF.noConfusion h, fun h => EF.noConfusion h⟩⟩
